import Mathlib

set_option maxRecDepth 8000

/-!
Verification of the put-screening pipeline of this repository.

The Python sources (`backend.py`, `options_screener_logic.py`) are embedded
shallowly: real-valued quantities become exact rationals (`ℚ`), dates become
integer day numbers (`ℤ`), pandas tables become lists of records, and the
transcendental primitives (`np.log`, `np.sqrt`, `scipy.stats.norm.cdf`) are
abstracted as function parameters so every definition stays executable.
IEEE-float special values that the Python code can produce (`inf`, `NaN`)
are modelled explicitly at the points where they arise, with a comment at
each such point.
-/

/-- The Python built-in `max` on two rationals, written out so it evaluates by
kernel reduction (it agrees with Mathlib `max`, see `qmax_eq_max`). -/
def qmax (a b : ℚ) : ℚ := if a ≤ b then b else a

/-- The Python built-in `min` on two rationals (agrees with Mathlib `min`). -/
def qmin (a b : ℚ) : ℚ := if a ≤ b then a else b

/-- The Python built-in `abs` on a rational (agrees with Mathlib `abs`). -/
def qabs (a : ℚ) : ℚ := if a < 0 then -a else a

/-- Executable `qmax` agrees with the order-theoretic `max`. -/
theorem qmax_eq_max (a b : ℚ) : qmax a b = max a b := (max_def a b).symm

/-- Executable `qmin` agrees with the order-theoretic `min`. -/
theorem qmin_eq_min (a b : ℚ) : qmin a b = min a b := (min_def a b).symm

/-- Executable `qabs` agrees with the lattice `abs`. -/
theorem qabs_eq_abs (a : ℚ) : qabs a = |a| := by
  unfold qabs
  rcases lt_or_ge a 0 with h | h
  · rw [if_pos h, abs_of_neg h]
  · rw [if_neg (not_lt.mpr h), abs_of_nonneg h]

/-- `linear_scale` from `backend.py` (lines 207-216): linearly scales a value
from a worst..best range to a 0-5 score, clamping out-of-range inputs.
Division is exact rational division (`x / 0 = 0` in `ℚ`); the checked variant
`linear_scale_checked` below models the Python division-by-zero failure. -/
def linear_scale (value worst best : ℚ) : ℚ :=
  if best < worst then -- Lower is better
    let w := best
    let b := worst
    let v := qmax w (qmin b value) -- Clamp
    5 * (b - v) / (b - w)
  else -- Higher is better
    let v := qmax worst (qmin best value) -- Clamp
    5 * (v - worst) / (best - worst)

/-- `linear_scale` with the Python division semantics made explicit: a zero
denominator (which in CPython raises `ZeroDivisionError`) is modelled as
`none`; otherwise the result is `some` of the computed score. -/
def linear_scale_checked (value worst best : ℚ) : Option ℚ :=
  if best < worst then
    let w := best
    let b := worst
    let v := qmax w (qmin b value)
    if b - w = 0 then none else some (5 * (b - v) / (b - w))
  else
    let v := qmax worst (qmin best value)
    if best - worst = 0 then none else some (5 * (v - worst) / (best - worst))

/-- Clamped linear scores always land in `[0, 5]` when the range is proper. -/
theorem linear_scale_mem (v w b : ℚ) (h : w ≠ b) :
    0 ≤ linear_scale v w b ∧ linear_scale v w b ≤ 5 := by
  unfold linear_scale
  simp only [qmax_eq_max, qmin_eq_min]
  split
  · rename_i hlt
    have hden : (0:ℚ) < w - b := by linarith
    have hvle : max b (min w v) ≤ w := max_le (le_of_lt hlt) (min_le_left _ _)
    have hvge : b ≤ max b (min w v) := le_max_left _ _
    constructor
    · apply div_nonneg _ (le_of_lt hden)
      nlinarith
    · rw [div_le_iff₀ hden]
      nlinarith
  · rename_i hge
    have hlt : w < b := lt_of_le_of_ne (not_lt.mp hge) h
    have hden : (0:ℚ) < b - w := by linarith
    have hvle : max w (min b v) ≤ b := max_le (le_of_lt hlt) (min_le_left _ _)
    have hvge : w ≤ max w (min b v) := le_max_left _ _
    constructor
    · apply div_nonneg _ (le_of_lt hden)
      nlinarith
    · rw [div_le_iff₀ hden]
      nlinarith

/-- C8: for every pair `(worst, best)` with `worst ≠ best`,
`linear_scale worst worst best = 0` and `linear_scale best worst best = 5`,
both in the higher-is-better configuration (`best > worst`) and in the
lower-is-better configuration (`best < worst`). -/
theorem linear_scale_endpoints (w b : ℚ) (h : w ≠ b) :
    linear_scale w w b = 0 ∧ linear_scale b w b = 5 := by
  simp only [linear_scale, qmax_eq_max, qmin_eq_min]
  rcases lt_or_gt_of_ne h with hlt | hgt
  · have hb : ¬ b < w := not_lt.mpr (le_of_lt hlt)
    have hne : b - w ≠ 0 := by intro hc; apply h; linarith
    constructor
    · simp only [linear_scale, hb, if_false]
      have : max w (min b w) = w := by
        rw [min_eq_right (le_of_lt hlt), max_self]
      rw [this]
      simp
    · simp only [linear_scale, hb, if_false]
      have : max w (min b b) = b := by
        rw [min_self, max_eq_right (le_of_lt hlt)]
      rw [this]
      field_simp
  · have hb : b < w := hgt
    have hne : w - b ≠ 0 := by intro hc; apply h; linarith
    constructor
    · simp only [linear_scale, hb, if_true]
      have : max b (min w w) = w := by
        rw [min_self, max_eq_right (le_of_lt hb)]
      rw [this]
      simp
    · simp only [linear_scale, hb, if_true]
      have : max b (min w b) = b := by
        rw [min_eq_right (le_of_lt hb), max_self]
      rw [this]
      field_simp

/-- Witness for `linear_scale_endpoints` at the concrete range 0..5 (higher is
better) evaluated directly. -/
theorem linear_scale_endpoints_witness :
    linear_scale 0 0 5 = 0 ∧ linear_scale 5 0 5 = 5 :=
  linear_scale_endpoints 0 5 (by norm_num)

/-- C10: `linear_scale` is partial at its interface: whenever `worst = best`
the executed branch divides by `best - worst = 0` (modelled by
`linear_scale_checked` returning `none`, standing for the Python
`ZeroDivisionError`), and whenever `worst ≠ best` the division is safe and the
checked variant agrees with `linear_scale`; hence every caller must guarantee
`worst ≠ best`. -/
theorem linear_scale_checked_spec :
    (∀ v w : ℚ, linear_scale_checked v w w = none) ∧
    (∀ v w b : ℚ, w ≠ b →
      linear_scale_checked v w b = some (linear_scale v w b)) := by
  constructor
  · intro v w
    simp [linear_scale_checked]
  · intro v w b h
    unfold linear_scale_checked linear_scale
    split
    · rename_i hlt
      have : w - b ≠ 0 := by intro hc; apply h; linarith
      simp [this]
    · rename_i hge
      have hlt : w < b := lt_of_le_of_ne (not_lt.mp hge) h
      have : b - w ≠ 0 := by intro hc; apply h; linarith
      simp [this]

/-- Witness for `linear_scale_checked_spec`: at `worst = best = 0` the checked
scale fails; at the proper range 0..1 it agrees with `linear_scale`. -/
theorem linear_scale_checked_spec_witness :
    linear_scale_checked 2 0 0 = none ∧
    linear_scale_checked 2 0 1 = some (linear_scale 2 0 1) :=
  ⟨linear_scale_checked_spec.1 2 0, linear_scale_checked_spec.2 2 0 1 (by norm_num)⟩

/-- The transcendental primitives used by the source (`np.log`, `np.sqrt`,
`scipy.stats.norm.cdf`), abstracted as rational-valued functions so that the
embedded option analytics stay executable. -/
structure MathPrims where
  log : ℚ → ℚ
  sqrt : ℚ → ℚ
  normCdf : ℚ → ℚ

/-- A concrete instantiation of the primitives, used to evaluate the embedded
code on sample inputs. -/
def samplePrims : MathPrims :=
  { log := fun x => x, sqrt := fun x => x, normCdf := fun _ => 1/2 }

/-- The Black-Scholes `d1` term shared by both delta implementations:
`d1 = (ln(S/K) + (r + sigma^2/2) T) / (sigma sqrt T)`. -/
def d1Of (P : MathPrims) (S K T r sigma : ℚ) : ℚ :=
  (P.log (S / K) + (r + sigma ^ 2 / 2) * T) / (sigma * P.sqrt T)

/-- `black_scholes_put_delta` from `backend.py` (lines 199-205). -/
def black_scholes_put_delta (P : MathPrims) (S K T r sigma : ℚ) : ℚ :=
  if T ≤ 0 ∨ sigma ≤ 0 then
    if S > K then 0 else -1
  else
    P.normCdf (d1Of P S K T r sigma) - 1

/-- Option side selector for `calculate_delta`. -/
inductive OptionSide where
  | put
  | call
deriving DecidableEq

/-- `calculate_delta` from `options_screener_logic.py` (lines 30-46): note the
degenerate branch returns `0` for calls and `-1` for puts with no comparison
of `S` against `K`. -/
def calculate_delta (P : MathPrims) (S K T r sigma : ℚ)
    (option_type : OptionSide) : ℚ :=
  if T ≤ 0 ∨ sigma ≤ 0 then -- Avoid division by zero or log of zero
    match option_type with
    | .call => 0
    | .put => -1
  else
    let d1 := d1Of P S K T r sigma
    match option_type with
    | .put => P.normCdf d1 - 1
    | .call => P.normCdf d1

/-- C3 counterexample: at `S = 2 > K = 1` with `T = 0`, the single-leg variant
`black_scholes_put_delta` returns `0` but the spread variant `calculate_delta`
with `option_type = put` returns `-1`, refuting the claim that both return
`0` when `S > K` in the degenerate case. -/
theorem calculate_delta_degenerate_counterexample :
    black_scholes_put_delta samplePrims 2 1 0 0 1 = 0 ∧
    calculate_delta samplePrims 2 1 0 0 1 .put = -1 ∧
    calculate_delta samplePrims 2 1 0 0 1 .put ≠
      black_scholes_put_delta samplePrims 2 1 0 0 1 := by
  refine ⟨by decide, by decide, by decide⟩

/-- C3 amended: in the degenerate case `T ≤ 0 ∨ sigma ≤ 0`,
`black_scholes_put_delta` returns `0` if `S > K` and `-1` otherwise, while
`calculate_delta` with `option_type = put` returns `-1` unconditionally (and
`0` for calls); for `T > 0` and `sigma > 0` both return
`normCdf (d1) - 1` with `d1 = (ln(S/K) + (r + sigma^2/2) T)/(sigma sqrt T)`. -/
theorem put_delta_characterisation (P : MathPrims) (S K T r sigma : ℚ) :
    (T ≤ 0 ∨ sigma ≤ 0 →
      black_scholes_put_delta P S K T r sigma = (if S > K then 0 else -1) ∧
      calculate_delta P S K T r sigma .put = -1 ∧
      calculate_delta P S K T r sigma .call = 0) ∧
    (0 < T → 0 < sigma →
      black_scholes_put_delta P S K T r sigma
        = P.normCdf (d1Of P S K T r sigma) - 1 ∧
      calculate_delta P S K T r sigma .put
        = P.normCdf (d1Of P S K T r sigma) - 1) := by
  constructor
  · intro h
    refine ⟨?_, ?_, ?_⟩ <;> simp [black_scholes_put_delta, calculate_delta, h]
  · intro hT hs
    have h : ¬ (T ≤ 0 ∨ sigma ≤ 0) := by
      push_neg
      exact ⟨hT, hs⟩
    refine ⟨?_, ?_⟩ <;> simp [black_scholes_put_delta, calculate_delta, h]

/-- Witness for `put_delta_characterisation` at `S = 1, K = 2, T = 0`
(degenerate branch) under the concrete sample primitives. -/
theorem put_delta_characterisation_witness :
    black_scholes_put_delta samplePrims 1 2 0 0 1 = (if (1:ℚ) > 2 then 0 else -1) ∧
    calculate_delta samplePrims 1 2 0 0 1 .put = -1 ∧
    calculate_delta samplePrims 1 2 0 0 1 .call = 0 :=
  (put_delta_characterisation samplePrims 1 2 0 0 1).1 (Or.inl le_rfl)

/-- One row of a put chain as consumed by `score_option`: the fields of the
yfinance puts table that the scorer reads, plus the ticker and expiration
columns that `process_tickers` attaches (the expiration date is an absolute
day number). -/
structure OptionQuote where
  strike : ℚ
  bid : ℚ
  impliedVolatility : ℚ
  expirationDate : ℤ
  ticker : String
deriving DecidableEq

/-- The dictionary returned by `score_option` (backend.py lines 274-279). -/
structure ScoredCandidate where
  expiration : ℤ
  strike : ℚ
  premium : ℚ
  dte : ℤ
  ivRank : ℚ
  delta : ℚ
  annReturn : ℚ
  marginOfSafety : ℚ
  score : ℚ
  ticker : String
  sector : String
deriving DecidableEq

/-- All-zero candidate record, used as the default when projecting sample
pipeline outputs. -/
def zeroCandidate : ScoredCandidate :=
  ⟨0, 0, 0, 0, 0, 0, 0, 0, 0, "", ""⟩

/-- `annualized_return` computation of backend.py line 230:
`(premium / (strike - premium)) * (365 / dte)` when the capital at risk per
share is positive, and `0` otherwise. -/
def annualizedReturnOf (strike premium : ℚ) (dte : ℤ) : ℚ :=
  if strike - premium > 0 then (premium / (strike - premium)) * (365 / (dte : ℚ))
  else 0

/-- IV-rank computation of backend.py lines 234-240: position of the implied
volatility inside the one-year historical-volatility range, defaulting to the
neutral `1/2` when the range is not positive, clamped to `[0, 1]`. -/
def ivRankOf (iv hv_low hv_high : ℚ) : ℚ :=
  let iv_range := hv_high - hv_low
  let raw := if iv_range > 0 then (iv - hv_low) / iv_range else 1/2
  qmax 0 (qmin 1 raw) -- Clamp between 0 and 1

/-- Category 1 (Return on Capital, 45% weight): average of the
annualized-return and IV-rank sub-scores (backend.py lines 242-245). -/
def scoreReturnOnCapital (annualized_return iv_rank : ℚ) : ℚ :=
  (linear_scale annualized_return (8/100) (25/100)
    + linear_scale iv_rank (10/100) (80/100)) / 2

/-- Category 2 (Probability and Safety, 35% weight): average of the
absolute-delta and margin-of-safety sub-scores (backend.py lines 247-255). -/
def scoreProbSafety (abs_delta margin_of_safety : ℚ) : ℚ :=
  (linear_scale abs_delta (35/100) (10/100)
    + linear_scale margin_of_safety (5/100) (20/100)) / 2

/-- Category 3 (Technicals, 15% weight): average of the RSI and
price-versus-200-day-SMA sub-scores (backend.py lines 257-261). -/
def scoreTechnicals (rsi price_vs_sma_pct : ℚ) : ℚ :=
  (linear_scale rsi 65 35 + linear_scale price_vs_sma_pct 0 (15/100)) / 2

/-- Category 4 (Risk Management, 5% weight), backend.py lines 263-266.  When
`portfolio_value ≤ 0` the Python code sets the risk percentage to `+inf`,
which `linear_scale` clamps to the worst end `10`, yielding score `0`; the
`else 0` branch inlines that IEEE-infinity behaviour. -/
def scoreSizing (capital_at_risk_total portfolio_value : ℚ) : ℚ :=
  if portfolio_value > 0 then
    linear_scale (capital_at_risk_total / portfolio_value * 100) 10 1
  else 0

/-- Final composite (backend.py lines 269-272): weighted category sum,
divided by 5 and rescaled to 0-100. -/
def finalScore (roc ps tech siz : ℚ) : ℚ :=
  (roc * (45/100) + ps * (35/100) + tech * (15/100) + siz * (5/100)) / 5 * 100

/-- `score_option` from backend.py (lines 219-279).  The wall-clock dependence
of line 224 (`datetime.datetime.now()`) is made explicit through the `now`
parameter (an absolute day number): `dte` is the day difference between the
option expiration and `now`. -/
def score_option (P : MathPrims) (option : OptionQuote) (now : ℤ)
    (current_price portfolio_value : ℚ) (sector : String)
    (rsi sma_50 sma_200 : ℚ) (hv_low_1y hv_high_1y : ℚ) : Option ScoredCandidate :=
  -- sma_50 is accepted (as in the Python signature) but never read by the body

  let strike := option.strike
  let premium := option.bid
  let iv := option.impliedVolatility
  let dte := option.expirationDate - now
  if dte ≤ 0 ∨ premium ≤ 0 ∨ strike ≤ 0 then none
  else
    let annualized_return := annualizedReturnOf strike premium dte
    if annualized_return < 8/100 then none
    else
      let iv_rank := ivRankOf iv hv_low_1y hv_high_1y
      let score_return_on_capital := scoreReturnOnCapital annualized_return iv_rank
      let T := (dte : ℚ) / 365
      let r : ℚ := 4/100
      let delta := black_scholes_put_delta P current_price strike T r iv
      let margin_of_safety := (current_price - strike) / current_price
      let score_prob_safety := scoreProbSafety (qabs delta) margin_of_safety
      let price_vs_sma_pct := (current_price - sma_200) / sma_200
      let score_technicals := scoreTechnicals rsi price_vs_sma_pct
      let capital_at_risk_total := strike * 100 - premium * 100
      let score_sizing := scoreSizing capital_at_risk_total portfolio_value
      some
        { expiration := option.expirationDate
          strike := strike
          premium := premium
          dte := dte
          ivRank := iv_rank
          delta := delta
          annReturn := annualized_return
          marginOfSafety := margin_of_safety
          score := finalScore score_return_on_capital score_prob_safety
                     score_technicals score_sizing
          ticker := option.ticker
          sector := sector }

/-- The non-`None` payload of `get_stock_data_and_technicals` (backend.py
lines 95-134): price, sector, option expirations (absolute day numbers), RSI,
the two SMAs, and the one-year historical-volatility range. -/
structure StockTech where
  price : ℚ
  sector : String
  expirations : List ℤ
  rsi : ℚ
  sma50 : ℚ
  sma200 : ℚ
  hvLow : ℚ
  hvHigh : ℚ
deriving DecidableEq

/-- One raw row of the yfinance puts table before `process_tickers` attaches
the ticker and expiration columns. -/
structure ChainPut where
  strike : ℚ
  bid : ℚ
  impliedVolatility : ℚ
deriving DecidableEq

/-- The external market-data collaborators of `process_tickers`:
`get_stock_data_and_technicals` and `get_options_chain_puts`, both of which
return `None` on any fetch failure. -/
structure PTProviders where
  stockData : String → Option StockTech
  chainPuts : String → ℤ → Option (List ChainPut)

/-- Inner loop of `process_tickers` (backend.py lines 297-308) for one valid
expiration: fetch the puts, keep the out-of-the-money strikes, score each and
keep the non-`None` results. -/
def scanExpiration (P : MathPrims) (provs : PTProviders) (t : String)
    (sd : StockTech) (pv : ℚ) (now : ℤ) (e : ℤ) : List ScoredCandidate :=
  match provs.chainPuts t e with
  | none => []
  | some puts =>
    if puts.isEmpty then []
    else
      let otm_puts := puts.filter (fun p => decide (p.strike < sd.price))
      otm_puts.filterMap (fun p =>
        score_option P ⟨p.strike, p.bid, p.impliedVolatility, e, t⟩ now
          sd.price pv sd.sector sd.rsi sd.sma50 sd.sma200 sd.hvLow sd.hvHigh)

/-- Outer loop body of `process_tickers` (backend.py lines 284-308) for one
ticker: skip it entirely when its data is missing or it has no expirations,
otherwise scan every expiration whose DTE lies in `[min_dte, max_dte]`. -/
def scanTicker (P : MathPrims) (provs : PTProviders) (min_dte max_dte : ℤ)
    (pv : ℚ) (now : ℤ) (t : String) : List ScoredCandidate :=
  match provs.stockData t with
  | none => [] -- Skipping ticker due to missing data
  | some sd =>
    if sd.expirations.isEmpty then []
    else
      let valid_expirations := sd.expirations.filter
        (fun e => decide (min_dte ≤ e - now) && decide (e - now ≤ max_dte))
      valid_expirations.flatMap (scanExpiration P provs t sd pv now)

/-- Insertion step of the score-descending sort. -/
def sortInsert (c : ScoredCandidate) :
    List ScoredCandidate → List ScoredCandidate
  | [] => [c]
  | x :: xs => if x.score < c.score then c :: x :: xs else x :: sortInsert c xs

/-- `df.sort_values(by=Score, ascending=False)` of backend.py line 322,
realised as an insertion sort by descending score (the claims under
verification depend on the multiset of rows, not on tie order). -/
def sortByScoreDesc : List ScoredCandidate → List ScoredCandidate
  | [] => []
  | x :: xs => sortInsert x (sortByScoreDesc xs)

/-- `process_tickers` from backend.py (lines 282-322): concatenate the
candidates of every ticker, then rank by descending score.  The progress
callback of the source only reports status and is dropped. -/
def process_tickers (P : MathPrims) (provs : PTProviders)
    (tickers : List String) (min_dte max_dte : ℤ) (pv : ℚ) (now : ℤ) :
    List ScoredCandidate :=
  let all_options := tickers.flatMap (scanTicker P provs min_dte max_dte pv now)
  sortByScoreDesc all_options

/-- Membership is invariant under the insertion step. -/
theorem mem_sortInsert {c x : ScoredCandidate} {l : List ScoredCandidate} :
    x ∈ sortInsert c l ↔ x = c ∨ x ∈ l := by
  induction l with
  | nil => simp [sortInsert]
  | cons y ys ih =>
    simp only [sortInsert]
    split
    · simp [or_comm, or_assoc, or_left_comm]
    · simp [ih]
      tauto

/-- Ranking does not change the set of emitted candidates. -/
theorem mem_sortByScoreDesc {x : ScoredCandidate} {l : List ScoredCandidate} :
    x ∈ sortByScoreDesc l ↔ x ∈ l := by
  induction l with
  | nil => simp [sortByScoreDesc]
  | cons y ys ih =>
    simp [sortByScoreDesc, mem_sortInsert, ih]

/-- Return-on-capital category score lies in `[0, 5]` for any raw inputs. -/
theorem scoreReturnOnCapital_mem (ar ivr : ℚ) :
    0 ≤ scoreReturnOnCapital ar ivr ∧ scoreReturnOnCapital ar ivr ≤ 5 := by
  have h1 := linear_scale_mem ar (8/100) (25/100) (by norm_num)
  have h2 := linear_scale_mem ivr (10/100) (80/100) (by norm_num)
  unfold scoreReturnOnCapital
  constructor <;> linarith [h1.1, h1.2, h2.1, h2.2]

/-- Probability-and-safety category score lies in `[0, 5]` for any inputs. -/
theorem scoreProbSafety_mem (ad mos : ℚ) :
    0 ≤ scoreProbSafety ad mos ∧ scoreProbSafety ad mos ≤ 5 := by
  have h1 := linear_scale_mem ad (35/100) (10/100) (by norm_num)
  have h2 := linear_scale_mem mos (5/100) (20/100) (by norm_num)
  unfold scoreProbSafety
  constructor <;> linarith [h1.1, h1.2, h2.1, h2.2]

/-- Technicals category score lies in `[0, 5]` for any raw inputs. -/
theorem scoreTechnicals_mem (rsi pct : ℚ) :
    0 ≤ scoreTechnicals rsi pct ∧ scoreTechnicals rsi pct ≤ 5 := by
  have h1 := linear_scale_mem rsi 65 35 (by norm_num)
  have h2 := linear_scale_mem pct 0 (15/100) (by norm_num)
  unfold scoreTechnicals
  constructor <;> linarith [h1.1, h1.2, h2.1, h2.2]

/-- Sizing category score lies in `[0, 5]` for any inputs (including a
non-positive portfolio value, where the IEEE infinity clamps to score 0). -/
theorem scoreSizing_mem (car pv : ℚ) :
    0 ≤ scoreSizing car pv ∧ scoreSizing car pv ≤ 5 := by
  unfold scoreSizing
  split
  · exact linear_scale_mem _ 10 1 (by norm_num)
  · norm_num

/-- Weighted composite of four `[0, 5]` category scores lies in `[0, 100]`. -/
theorem finalScore_mem {a b c d : ℚ}
    (ha : 0 ≤ a ∧ a ≤ 5) (hb : 0 ≤ b ∧ b ≤ 5)
    (hc : 0 ≤ c ∧ c ≤ 5) (hd : 0 ≤ d ∧ d ≤ 5) :
    0 ≤ finalScore a b c d ∧ finalScore a b c d ≤ 100 := by
  unfold finalScore
  constructor <;>
    linarith [ha.1, ha.2, hb.1, hb.2, hc.1, hc.2, hd.1, hd.2]

/-- C1: every sub-score produced by `linear_scale` over a proper range lies in
`[0, 5]` after clamping, whatever the raw metric value; and whenever
`score_option` accepts an option, the returned composite score lies in
`[0, 100]` and equals the weighted sum of the four category scores (weights
45/35/15/5 percent) divided by 5 and multiplied by 100. -/
theorem score_option_composite_bounds :
    (∀ v w b : ℚ, w ≠ b → 0 ≤ linear_scale v w b ∧ linear_scale v w b ≤ 5) ∧
    (∀ (P : MathPrims) (opt : OptionQuote) (now : ℤ)
      (current_price portfolio_value : ℚ) (sector : String)
      (rsi sma_50 sma_200 hv_low hv_high : ℚ) (c : ScoredCandidate),
      score_option P opt now current_price portfolio_value sector
          rsi sma_50 sma_200 hv_low hv_high = some c →
      (0 ≤ c.score ∧ c.score ≤ 100) ∧
      c.score = finalScore
        (scoreReturnOnCapital c.annReturn c.ivRank)
        (scoreProbSafety (qabs c.delta) c.marginOfSafety)
        (scoreTechnicals rsi ((current_price - sma_200) / sma_200))
        (scoreSizing (opt.strike * 100 - opt.bid * 100) portfolio_value)) := by
  refine ⟨linear_scale_mem, ?_⟩
  intro P opt now cp pv sec rsi s50 s200 hl hh c h
  simp only [score_option] at h
  split at h
  · exact absurd h (by simp)
  · split at h
    · exact absurd h (by simp)
    · injection h with h2
      subst h2
      refine ⟨?_, rfl⟩
      exact finalScore_mem (scoreReturnOnCapital_mem _ _) (scoreProbSafety_mem _ _)
        (scoreTechnicals_mem _ _) (scoreSizing_mem _ _)

/-- Sample quote used to exercise the scorer: strike 90, bid 2, IV 0.30,
expiring on day 30. -/
def sampleQuote : OptionQuote := ⟨90, 2, 3/10, 30, "TST"⟩

/-- Concrete scored candidate produced by `score_option` on `sampleQuote` at
day 0 with price 100 and portfolio value 10000. -/
def sampleScored : ScoredCandidate :=
  (score_option samplePrims sampleQuote 0 100 10000 "Tech"
    50 100 100 (1/5) (1/2)).getD zeroCandidate

/-- Witness for `score_option_composite_bounds`: both conjuncts instantiated
on concrete inputs, the second on `sampleQuote`. -/
theorem score_option_composite_bounds_witness :
    (0 ≤ linear_scale 3 0 5 ∧ linear_scale 3 0 5 ≤ 5) ∧
    (0 ≤ sampleScored.score ∧ sampleScored.score ≤ 100) := by
  refine ⟨score_option_composite_bounds.1 3 0 5 (by norm_num), ?_⟩
  exact (score_option_composite_bounds.2 samplePrims sampleQuote 0 100 10000
    "Tech" 50 100 100 (1/5) (1/2) sampleScored (by with_unfolding_all decide)).1

/-- Every candidate accepted by `score_option` records an annualized return of
at least 8 percent (the value compared by the hard filter is the value
stored in the output record). -/
theorem score_option_some_annReturn_ge (P : MathPrims) (opt : OptionQuote)
    (now : ℤ) (cp pv : ℚ) (sec : String) (rsi s50 s200 hl hh : ℚ)
    (c : ScoredCandidate)
    (h : score_option P opt now cp pv sec rsi s50 s200 hl hh = some c) :
    8/100 ≤ c.annReturn := by
  simp only [score_option] at h
  split at h
  · exact absurd h (by simp)
  · split at h
    · exact absurd h (by simp)
    · rename_i hok
      injection h with h2
      subst h2
      exact not_lt.mp hok

/-- C2: `score_option` returns `none` whenever `dte ≤ 0`, `premium ≤ 0`,
`strike ≤ 0`, or the annualized return (taken as `0` when
`strike - premium ≤ 0`) is below 8 percent; consequently no candidate with
annualized return below 8 percent ever appears in the output of
`process_tickers`. -/
theorem hard_filter_spec :
    (∀ (P : MathPrims) (opt : OptionQuote) (now : ℤ) (cp pv : ℚ)
      (sec : String) (rsi s50 s200 hl hh : ℚ),
      (opt.expirationDate - now ≤ 0 ∨ opt.bid ≤ 0 ∨ opt.strike ≤ 0 ∨
        annualizedReturnOf opt.strike opt.bid (opt.expirationDate - now)
          < 8/100) →
      score_option P opt now cp pv sec rsi s50 s200 hl hh = none) ∧
    (∀ (P : MathPrims) (provs : PTProviders) (tickers : List String)
      (mn mx : ℤ) (pv : ℚ) (now : ℤ) (c : ScoredCandidate),
      c ∈ process_tickers P provs tickers mn mx pv now →
      8/100 ≤ c.annReturn) := by
  constructor
  · intro P opt now cp pv sec rsi s50 s200 hl hh hbad
    simp only [score_option]
    by_cases h1 : opt.expirationDate - now ≤ 0 ∨ opt.bid ≤ 0 ∨ opt.strike ≤ 0
    · rw [if_pos h1]
    · rw [if_neg h1]
      have hann : annualizedReturnOf opt.strike opt.bid
          (opt.expirationDate - now) < 8/100 := by tauto
      rw [if_pos hann]
  · intro P provs tickers mn mx pv now c hmem
    simp only [process_tickers] at hmem
    rw [mem_sortByScoreDesc] at hmem
    obtain ⟨t, ht, hmem2⟩ := List.mem_flatMap.mp hmem
    simp only [scanTicker] at hmem2
    split at hmem2
    · simp at hmem2
    · split at hmem2
      · simp at hmem2
      · obtain ⟨e, he, hmem3⟩ := List.mem_flatMap.mp hmem2
        simp only [scanExpiration] at hmem3
        split at hmem3
        · simp at hmem3
        · split at hmem3
          · simp at hmem3
          · obtain ⟨p, hp, hscore⟩ := List.mem_filterMap.mp hmem3
            exact score_option_some_annReturn_ge _ _ _ _ _ _ _ _ _ _ _ _ hscore

/-- Concrete stock snapshot used to exercise the pipeline. -/
def sampleStock : StockTech := ⟨100, "Tech", [30], 50, 100, 100, 1/5, 1/2⟩

/-- Concrete data providers: one stock with one expiration carrying a single
put quote of strike 90, bid 2 and IV 0.30. -/
def sampleProviders : PTProviders :=
  { stockData := fun _ => some sampleStock
    chainPuts := fun _ _ => some [⟨90, 2, 3/10⟩] }

/-- Output of the full embedded pipeline on the sample providers at day 0. -/
def samplePipeline : List ScoredCandidate :=
  process_tickers samplePrims sampleProviders ["TST"] 1 60 10000 0

/-- Head of `samplePipeline` (the pipeline emits exactly one candidate). -/
def samplePipelineCand : ScoredCandidate := samplePipeline.headD zeroCandidate

/-- Witness for `hard_filter_spec`: a quote that expires on the evaluation day
is rejected, and the concrete candidate the sample pipeline emits carries an
annualized return of at least 8 percent. -/
theorem hard_filter_spec_witness :
    score_option samplePrims ⟨90, 2, 3/10, 0, "TST"⟩ 0 100 10000 "Tech"
      50 100 100 (1/5) (1/2) = none ∧
    8/100 ≤ samplePipelineCand.annReturn := by
  constructor
  · exact hard_filter_spec.1 samplePrims ⟨90, 2, 3/10, 0, "TST"⟩ 0 100 10000
      "Tech" 50 100 100 (1/5) (1/2) (by with_unfolding_all decide)
  · exact hard_filter_spec.2 samplePrims sampleProviders ["TST"] 1 60 10000 0
      samplePipelineCand (by with_unfolding_all decide)

/-- C9 counterexample: with the data providers, tickers and parameters held
fixed, running the pipeline at day 0 and at day 29 yields different ranked
output (the DTE computed from `datetime.now()` changes from 30 to 1, changing
annualized return and score), so the computation depends on the wall clock and
not only on its inputs. -/
theorem process_tickers_time_counterexample :
    process_tickers samplePrims sampleProviders ["TST"] 1 60 10000 0 ≠
      process_tickers samplePrims sampleProviders ["TST"] 1 60 10000 29 := by
  with_unfolding_all decide

/-- Expiration scans agree when the two providers serve the same chain for
the scanned (ticker, expiration) pair. -/
theorem scanExpiration_congr (P : MathPrims) (provs provs2 : PTProviders)
    (t : String) (sd : StockTech) (pv : ℚ) (now : ℤ) (e : ℤ)
    (h : provs.chainPuts t e = provs2.chainPuts t e) :
    scanExpiration P provs t sd pv now e =
      scanExpiration P provs2 t sd pv now e := by
  unfold scanExpiration
  rw [h]

/-- Ticker scans agree when the two providers serve the same stock snapshot
and the same chains for that ticker. -/
theorem scanTicker_congr (P : MathPrims) (provs provs2 : PTProviders)
    (mn mx : ℤ) (pv : ℚ) (now : ℤ) (t : String)
    (hs : provs.stockData t = provs2.stockData t)
    (hc : ∀ e, provs.chainPuts t e = provs2.chainPuts t e) :
    scanTicker P provs mn mx pv now t = scanTicker P provs2 mn mx pv now t := by
  unfold scanTicker
  rw [hs]
  have hfe : scanExpiration P provs t = scanExpiration P provs2 t :=
    funext fun sd => funext fun pv => funext fun now => funext fun e =>
      scanExpiration_congr P provs provs2 t sd pv now e (hc e)
  rw [hfe]

/-- C9 amended: the pipeline is deterministic in its explicit inputs plus the
evaluation day: two runs with providers that agree on every scanned ticker
(same price series data and same option chains), the same ticker list, DTE
window, portfolio value and the same `now` produce identical ranked output.
(The original claim fails only because `now` — read from `datetime.now()` —
is an additional hidden input, see the counterexample.) -/
theorem process_tickers_deterministic (P : MathPrims)
    (provs provs2 : PTProviders) (tickers : List String) (mn mx : ℤ)
    (pv : ℚ) (now : ℤ)
    (hs : ∀ t ∈ tickers, provs.stockData t = provs2.stockData t)
    (hc : ∀ t ∈ tickers, ∀ e, provs.chainPuts t e = provs2.chainPuts t e) :
    process_tickers P provs tickers mn mx pv now =
      process_tickers P provs2 tickers mn mx pv now := by
  have key : ∀ l : List String,
      (∀ t ∈ l, provs.stockData t = provs2.stockData t) →
      (∀ t ∈ l, ∀ e, provs.chainPuts t e = provs2.chainPuts t e) →
      l.flatMap (scanTicker P provs mn mx pv now)
        = l.flatMap (scanTicker P provs2 mn mx pv now) := by
    intro l
    induction l with
    | nil => intro _ _; rfl
    | cons t ts ih =>
      intro h1 h2
      simp only [List.flatMap_cons]
      rw [scanTicker_congr P provs provs2 mn mx pv now t
            (h1 t (List.mem_cons_self t ts)) (h2 t (List.mem_cons_self t ts)),
          ih (fun u hu => h1 u (List.mem_cons_of_mem t hu))
            (fun u hu => h2 u (List.mem_cons_of_mem t hu))]
  simp only [process_tickers]
  rw [key tickers hs hc]

/-- Providers that agree with `sampleProviders` on the scanned ticker but
serve nothing for any other symbol. -/
def sampleProvidersAlt : PTProviders :=
  { stockData := fun t => if t = "TST" then some sampleStock else none
    chainPuts := fun t _ => if t = "TST" then some [⟨90, 2, 3/10⟩] else none }

/-- Witness for `process_tickers_deterministic`: the two concrete providers
agree on the single scanned ticker, so the two runs coincide. -/
theorem process_tickers_deterministic_witness :
    process_tickers samplePrims sampleProviders ["TST"] 1 60 10000 0 =
      process_tickers samplePrims sampleProvidersAlt ["TST"] 1 60 10000 0 :=
  process_tickers_deterministic samplePrims sampleProviders sampleProvidersAlt
    ["TST"] 1 60 10000 0
    (fun t ht => by rw [List.mem_singleton] at ht; subst ht; rfl)
    (fun t ht e => by rw [List.mem_singleton] at ht; subst ht; rfl)

/-- Round-half-to-even to an integer, the semantics of the Python built-in
`round` (idealised over exact rationals). -/
def roundHalfEven (q : ℚ) : ℤ :=
  let f := ⌊q⌋
  if q - f < 1/2 then f
  else if (1:ℚ)/2 < q - f then f + 1
  else if f % 2 = 0 then f else f + 1

/-- Python `round(q, 2)`. -/
def roundTo2 (q : ℚ) : ℚ := (roundHalfEven (q * 100) : ℚ) / 100

/-- Python `round(q, 3)`. -/
def roundTo3 (q : ℚ) : ℚ := (roundHalfEven (q * 1000) : ℚ) / 1000

/-- Half-even rounding moves a value by at most one half. -/
theorem roundHalfEven_close (q : ℚ) :
    q - 1/2 ≤ (roundHalfEven q : ℚ) ∧ (roundHalfEven q : ℚ) ≤ q + 1/2 := by
  simp only [roundHalfEven]
  have h1 : (⌊q⌋ : ℚ) ≤ q := Int.floor_le q
  have h2 : q < ⌊q⌋ + 1 := Int.lt_floor_add_one q
  split
  · rename_i hlt
    constructor <;> linarith
  · rename_i hge
    split
    · rename_i hgt
      constructor <;> (push_cast; linarith)
    · rename_i hng
      have heq : q - ⌊q⌋ = 1/2 := le_antisymm (not_lt.mp hng) (not_lt.mp hge)
      split
      · constructor <;> linarith
      · constructor <;> (push_cast; linarith)

/-- Rounding to two decimals lowers a value by at most `1/200`. -/
theorem roundTo2_ge (q : ℚ) : q - 1/200 ≤ roundTo2 q := by
  have h := (roundHalfEven_close (q * 100)).1
  unfold roundTo2
  linarith

/-- One row of the delta-annotated put chain consumed by
`find_best_put_spread`: strike, computed delta, and midpoint premium. -/
structure SpreadPut where
  strike : ℚ
  delta : ℚ
  premium : ℚ
deriving DecidableEq

/-- Termination reasons of `find_best_put_spread`, one constructor per
message string of the source (the credit message carries the two formatted
amounts). -/
inductive SpreadReason where
  | noShort
  | noLong
  | nonPosWidth
  | creditTooLow (netCredit minCredit : ℚ)
  | nonPosRisk
  | passed
deriving DecidableEq

/-- The `spread_details` dictionary emitted on success
(options_screener_logic.py lines 188-197). -/
structure SpreadDetails where
  short_put_strike : ℚ
  short_put_delta : ℚ
  long_put_strike : ℚ
  long_put_delta : ℚ
  spread_width : ℚ
  net_credit : ℚ
  max_risk : ℚ
  return_on_risk : ℚ
deriving DecidableEq

/-- Short-strike candidate filter (line 158): delta in `[-0.30, -0.20]`. -/
def potentialShorts (chain : List SpreadPut) : List SpreadPut :=
  chain.filter (fun p =>
    decide (-(30:ℚ)/100 ≤ p.delta) && decide (p.delta ≤ -(20:ℚ)/100))

/-- Long-strike candidate filter (line 166): delta in `[-0.20, -0.10)` and
strike strictly below the chosen short strike. -/
def potentialLongs (chain : List SpreadPut) (short_strike : ℚ) :
    List SpreadPut :=
  chain.filter (fun p =>
    decide (-(20:ℚ)/100 ≤ p.delta) && decide (p.delta < -(10:ℚ)/100) &&
      decide (p.strike < short_strike))

/-- `idxmax` of the absolute delta column over a non-empty frame `p :: ps`:
the first row attaining the maximal `|delta|`. -/
def maxAbsDelta (p : SpreadPut) (ps : List SpreadPut) : SpreadPut :=
  ps.foldl (fun acc x => if qabs acc.delta < qabs x.delta then x else acc) p

/-- `idxmin` of the absolute delta column over a non-empty frame `p :: ps`:
the first row attaining the minimal `|delta|`. -/
def minAbsDelta (p : SpreadPut) (ps : List SpreadPut) : SpreadPut :=
  ps.foldl (fun acc x => if qabs x.delta < qabs acc.delta then x else acc) p

/-- The row chosen by `maxAbsDelta` belongs to the frame and dominates every
row in absolute delta. -/
theorem maxAbsDelta_spec (p : SpreadPut) (ps : List SpreadPut) :
    (maxAbsDelta p ps = p ∨ maxAbsDelta p ps ∈ ps) ∧
    qabs p.delta ≤ qabs (maxAbsDelta p ps).delta ∧
    ∀ x ∈ ps, qabs x.delta ≤ qabs (maxAbsDelta p ps).delta := by
  induction ps generalizing p with
  | nil => exact ⟨Or.inl rfl, le_refl _, by simp⟩
  | cons x xs ih =>
    have hstep : maxAbsDelta p (x :: xs)
        = maxAbsDelta (if qabs p.delta < qabs x.delta then x else p) xs := rfl
    obtain ⟨hmem, hbase, hall⟩ :=
      ih (if qabs p.delta < qabs x.delta then x else p)
    rw [hstep]
    refine ⟨?_, ?_, ?_⟩
    · rcases hmem with hm | hm
      · rw [hm]
        split
        · exact Or.inr (List.mem_cons_self _ _)
        · exact Or.inl rfl
      · exact Or.inr (List.mem_cons_of_mem _ hm)
    · refine le_trans ?_ hbase
      split
      · rename_i hx
        exact le_of_lt hx
      · exact le_refl _
    · intro y hy
      rcases List.mem_cons.mp hy with hyx | hyxs
      · subst hyx
        refine le_trans ?_ hbase
        split
        · exact le_refl _
        · rename_i hx
          exact not_lt.mp hx
      · exact hall y hyxs

/-- The row chosen by `minAbsDelta` belongs to the frame and is dominated by
every row in absolute delta. -/
theorem minAbsDelta_spec (p : SpreadPut) (ps : List SpreadPut) :
    (minAbsDelta p ps = p ∨ minAbsDelta p ps ∈ ps) ∧
    qabs (minAbsDelta p ps).delta ≤ qabs p.delta ∧
    ∀ x ∈ ps, qabs (minAbsDelta p ps).delta ≤ qabs x.delta := by
  induction ps generalizing p with
  | nil => exact ⟨Or.inl rfl, le_refl _, by simp⟩
  | cons x xs ih =>
    have hstep : minAbsDelta p (x :: xs)
        = minAbsDelta (if qabs x.delta < qabs p.delta then x else p) xs := rfl
    obtain ⟨hmem, hbase, hall⟩ :=
      ih (if qabs x.delta < qabs p.delta then x else p)
    rw [hstep]
    refine ⟨?_, ?_, ?_⟩
    · rcases hmem with hm | hm
      · rw [hm]
        split
        · exact Or.inr (List.mem_cons_self _ _)
        · exact Or.inl rfl
      · exact Or.inr (List.mem_cons_of_mem _ hm)
    · refine le_trans hbase ?_
      split
      · rename_i hx
        exact le_of_lt hx
      · exact le_refl _
    · intro y hy
      rcases List.mem_cons.mp hy with hyx | hyxs
      · subst hyx
        refine le_trans hbase ?_
        split
        · exact le_refl _
        · rename_i hx
          exact not_lt.mp hx
      · exact hall y hyxs

/-- `find_best_put_spread` from options_screener_logic.py (lines 152-199):
select the short leg by delta band and maximal absolute delta, the long leg
by delta band, lower strike and minimal absolute delta, then apply the
minimum-credit and risk checks.  The result couples the optional
`spread_details` payload with the termination reason. -/
def find_best_put_spread (chain : List SpreadPut) :
    Option SpreadDetails × SpreadReason :=
  match potentialShorts chain with
  | [] => (none, .noShort)
  | s0 :: srest =>
    let short_put := maxAbsDelta s0 srest
    match potentialLongs chain short_put.strike with
    | [] => (none, .noLong)
    | l0 :: lrest =>
      let long_put := minAbsDelta l0 lrest
      let spread_width := short_put.strike - long_put.strike
      if spread_width ≤ 0 then (none, .nonPosWidth)
      else
        let net_credit := roundTo2 (short_put.premium - long_put.premium)
        let min_credit_required := roundTo2 (spread_width / 3)
        if net_credit < min_credit_required then
          (none, .creditTooLow net_credit min_credit_required)
        else
          let max_risk := spread_width - net_credit
          if max_risk ≤ 0 then (none, .nonPosRisk)
          else
            (some
              { short_put_strike := short_put.strike
                short_put_delta := roundTo3 short_put.delta
                long_put_strike := long_put.strike
                long_put_delta := roundTo3 long_put.delta
                spread_width := spread_width
                net_credit := net_credit
                max_risk := max_risk
                return_on_risk := roundTo2 (net_credit / max_risk * 100) },
              .passed)

/-- Chain exhibiting the rounding gap in the minimum-credit rule: strikes
10.01 and 10.00, so the width is 0.01 and a third of it (1/300) rounds down
to 0.00; the net credit 0.001 also rounds to 0.00 and passes the check. -/
def c4Chain : List SpreadPut :=
  [⟨1001/100, -(25:ℚ)/100, 1/1000⟩, ⟨10, -(15:ℚ)/100, 0⟩]

/-- The spread emitted on `c4Chain`. -/
def c4Spread : SpreadDetails :=
  ((find_best_put_spread c4Chain).1).getD ⟨0, 0, 0, 0, 0, 0, 0, 0⟩

/-- C4 counterexample: `find_best_put_spread` emits a spread on `c4Chain`
whose net credit (0.00) is strictly below a third of its width (1/300): the
source compares the credit against `round(width/3, 2)`, not against
`width/3`, so the claimed invariant `netCredit ≥ width/3` fails. -/
theorem find_best_put_spread_credit_counterexample :
    (find_best_put_spread c4Chain).1 = some c4Spread ∧
    c4Spread.net_credit < c4Spread.spread_width / 3 := by
  with_unfolding_all decide

/-- Every run of `find_best_put_spread` ends either with a spread and the
`passed` reason, or with no spread and a failure reason. -/
theorem find_best_put_spread_cases (chain : List SpreadPut) :
    (∃ sp, find_best_put_spread chain = (some sp, SpreadReason.passed)) ∨
    (∃ r, find_best_put_spread chain = (none, r) ∧ r ≠ SpreadReason.passed) := by
  simp only [find_best_put_spread]
  split
  · exact Or.inr ⟨_, rfl, by simp⟩
  · split
    · exact Or.inr ⟨_, rfl, by simp⟩
    · split
      · exact Or.inr ⟨_, rfl, by simp⟩
      · split
        · exact Or.inr ⟨_, rfl, by simp⟩
        · split
          · exact Or.inr ⟨_, rfl, by simp⟩
          · exact Or.inl ⟨_, rfl⟩

/-- C4 amended: whenever `find_best_put_spread` emits a spread, the short
strike exceeds the long strike, the width `shortStrike - longStrike` is
positive, the net credit is at least `round(width/3, 2)` — hence at least
`width/3 - 1/200` — and `maxRisk = width - netCredit` is positive; and
whenever no spread is emitted, the accompanying reason is a failure reason,
never `passed`. -/
theorem find_best_put_spread_invariants :
    (∀ (chain : List SpreadPut) (sp : SpreadDetails),
      (find_best_put_spread chain).1 = some sp →
      sp.long_put_strike < sp.short_put_strike ∧
      sp.spread_width = sp.short_put_strike - sp.long_put_strike ∧
      0 < sp.spread_width ∧
      roundTo2 (sp.spread_width / 3) ≤ sp.net_credit ∧
      sp.spread_width / 3 - 1/200 ≤ sp.net_credit ∧
      sp.max_risk = sp.spread_width - sp.net_credit ∧
      0 < sp.max_risk ∧
      (find_best_put_spread chain).2 = SpreadReason.passed) ∧
    (∀ chain : List SpreadPut,
      (find_best_put_spread chain).1 = none →
      (find_best_put_spread chain).2 ≠ SpreadReason.passed) := by
  constructor
  · intro chain sp h
    have hpassed : (find_best_put_spread chain).2 = SpreadReason.passed := by
      rcases find_best_put_spread_cases chain with ⟨sp2, heq⟩ | ⟨r, heq, hr⟩
      · rw [heq]
      · rw [heq] at h
        exact absurd h (by simp)
    simp only [find_best_put_spread] at h
    split at h
    · exact absurd h (by simp)
    · rename_i s0 srest hps
      split at h
      · exact absurd h (by simp)
      · rename_i l0 lrest hpl
        split at h
        · exact absurd h (by simp)
        · rename_i hwidth
          split at h
          · exact absurd h (by simp)
          · rename_i hcredit
            split at h
            · exact absurd h (by simp)
            · rename_i hrisk
              injection h with h2
              subst h2
              have hw := not_le.mp hwidth
              have hc := not_lt.mp hcredit
              have hr := not_le.mp hrisk
              have hround := roundTo2_ge
                (((maxAbsDelta s0 srest).strike
                  - (minAbsDelta l0 lrest).strike) / 3)
              refine ⟨?_, rfl, hw, hc, ?_, rfl, hr, hpassed⟩
              · show (minAbsDelta l0 lrest).strike
                  < (maxAbsDelta s0 srest).strike
                linarith
              · show ((maxAbsDelta s0 srest).strike
                    - (minAbsDelta l0 lrest).strike) / 3 - 1/200
                    ≤ roundTo2 ((maxAbsDelta s0 srest).premium
                      - (minAbsDelta l0 lrest).premium)
                linarith
  · intro chain h
    rcases find_best_put_spread_cases chain with ⟨sp2, heq⟩ | ⟨r, heq, hr⟩
    · rw [heq] at h
      exact absurd h (by simp)
    · rw [heq]
      exact hr

/-- Chain on which the spread constructor succeeds with a comfortable credit:
short 95 at delta -0.25 premium 3, long 90 at delta -0.15 premium 1. -/
def c4PassChain : List SpreadPut :=
  [⟨95, -(25:ℚ)/100, 3⟩, ⟨90, -(15:ℚ)/100, 1⟩]

/-- The spread emitted on `c4PassChain`: width 5, net credit 2 (meeting the
rounded minimum 1.67), max risk 3, return on risk 66.67 percent. -/
def c4PassSpread : SpreadDetails :=
  ⟨95, -(1:ℚ)/4, 90, -(3:ℚ)/20, 5, 2, 3, 6667/100⟩

/-- Witness for `find_best_put_spread_invariants` on the concrete passing
chain `c4PassChain`. -/
theorem find_best_put_spread_invariants_witness :
    c4PassSpread.long_put_strike < c4PassSpread.short_put_strike ∧
    c4PassSpread.spread_width
      = c4PassSpread.short_put_strike - c4PassSpread.long_put_strike ∧
    0 < c4PassSpread.spread_width ∧
    roundTo2 (c4PassSpread.spread_width / 3) ≤ c4PassSpread.net_credit ∧
    c4PassSpread.spread_width / 3 - 1/200 ≤ c4PassSpread.net_credit ∧
    c4PassSpread.max_risk
      = c4PassSpread.spread_width - c4PassSpread.net_credit ∧
    0 < c4PassSpread.max_risk ∧
    (find_best_put_spread c4PassChain).2 = SpreadReason.passed :=
  find_best_put_spread_invariants.1 c4PassChain c4PassSpread
    (by norm_num [find_best_put_spread, potentialShorts, potentialLongs,
      c4PassChain, List.filter_cons, maxAbsDelta, minAbsDelta, qabs,
      roundTo2, roundTo3, roundHalfEven, c4PassSpread])

/-- C7: `find_best_put_spread` fails with the no-short reason when no put has
delta in `[-0.30, -0.20]`; fails with the no-long reason when no put has both
delta in `[-0.20, -0.10)` and strike below the selected short strike; and
whenever it emits a spread, the short leg is a chain row inside the short
delta band maximising `|delta|` and the long leg is a chain row inside the
long band (with strike below the short strike) minimising `|delta|`. -/
theorem find_best_put_spread_leg_selection :
    (∀ chain : List SpreadPut, potentialShorts chain = [] →
      find_best_put_spread chain = (none, SpreadReason.noShort)) ∧
    (∀ (chain : List SpreadPut) (s0 : SpreadPut) (srest : List SpreadPut),
      potentialShorts chain = s0 :: srest →
      potentialLongs chain (maxAbsDelta s0 srest).strike = [] →
      find_best_put_spread chain = (none, SpreadReason.noLong)) ∧
    (∀ (chain : List SpreadPut) (sp : SpreadDetails),
      (find_best_put_spread chain).1 = some sp →
      (∃ s ∈ potentialShorts chain,
        (∀ x ∈ potentialShorts chain, qabs x.delta ≤ qabs s.delta) ∧
        s ∈ chain ∧ -(30:ℚ)/100 ≤ s.delta ∧ s.delta ≤ -(20:ℚ)/100 ∧
        sp.short_put_strike = s.strike ∧
        sp.short_put_delta = roundTo3 s.delta ∧
        (∃ l ∈ potentialLongs chain s.strike,
          (∀ x ∈ potentialLongs chain s.strike, qabs l.delta ≤ qabs x.delta) ∧
          l ∈ chain ∧ -(20:ℚ)/100 ≤ l.delta ∧ l.delta < -(10:ℚ)/100 ∧
          l.strike < s.strike ∧
          sp.long_put_strike = l.strike ∧
          sp.long_put_delta = roundTo3 l.delta))) := by
  refine ⟨?_, ?_, ?_⟩
  · intro chain hps
    unfold find_best_put_spread
    rw [hps]
  · intro chain s0 srest hps hpl
    unfold find_best_put_spread
    rw [hps]
    dsimp only
    rw [hpl]
  · intro chain sp h
    simp only [find_best_put_spread] at h
    split at h
    · exact absurd h (by simp)
    · rename_i s0 srest hps
      split at h
      · exact absurd h (by simp)
      · rename_i l0 lrest hpl
        split at h
        · exact absurd h (by simp)
        · split at h
          · exact absurd h (by simp)
          · split at h
            · exact absurd h (by simp)
            · injection h with h2
              subst h2
              obtain ⟨hsmem, _, hsall⟩ := maxAbsDelta_spec s0 srest
              obtain ⟨hlmem, _, hlall⟩ := minAbsDelta_spec l0 lrest
              have hsmem2 : maxAbsDelta s0 srest ∈ potentialShorts chain := by
                rw [hps]
                rcases hsmem with hm | hm
                · rw [hm]; exact List.mem_cons_self _ _
                · exact List.mem_cons_of_mem _ hm
              have hlmem2 : minAbsDelta l0 lrest
                  ∈ potentialLongs chain (maxAbsDelta s0 srest).strike := by
                rw [hpl]
                rcases hlmem with hm | hm
                · rw [hm]; exact List.mem_cons_self _ _
                · exact List.mem_cons_of_mem _ hm
              have hsfil := List.mem_filter.mp hsmem2
              have hlfil := List.mem_filter.mp hlmem2
              have hsband := hsfil.2
              have hlband := hlfil.2
              simp only [Bool.and_eq_true, decide_eq_true_eq] at hsband hlband
              refine ⟨maxAbsDelta s0 srest, hsmem2, ?_, hsfil.1,
                hsband.1, hsband.2, rfl, rfl,
                minAbsDelta l0 lrest, hlmem2, ?_, hlfil.1,
                hlband.1.1, hlband.1.2, hlband.2, rfl, rfl⟩
              · intro x hx
                rw [hps] at hx
                rcases List.mem_cons.mp hx with hx0 | hxr
                · subst hx0
                  exact (maxAbsDelta_spec x srest).2.1
                · exact hsall x hxr
              · intro x hx
                rw [hpl] at hx
                rcases List.mem_cons.mp hx with hx0 | hxr
                · subst hx0
                  exact (minAbsDelta_spec x lrest).2.1
                · exact hlall x hxr

/-- Witness for `find_best_put_spread_leg_selection`: on the empty chain the
short-leg band is empty and the constructor reports the no-short reason. -/
theorem find_best_put_spread_leg_selection_witness :
    find_best_put_spread [] = (none, SpreadReason.noShort) :=
  find_best_put_spread_leg_selection.1 [] rfl

/-- The dictionary returned by `get_stock_data` in options_screener_logic.py
(lines 48-75); a `none` field models a NaN entry (`pd.isna`). -/
structure ScreenStockData where
  price : Option ℚ
  sma50 : Option ℚ
  rsi14 : Option ℚ
deriving DecidableEq

/-- External collaborators of `run_screener`: the risk-free rate (already
defaulted on fetch failure), the volatility-rank computation, the stock-data
fetch, and `get_options_chain_with_greeks` (which returns either a
delta-annotated put chain or no chain plus a reason string). -/
structure ScreenProviders where
  riskFreeRate : ℚ
  volRank : String → ℚ
  stockData : String → Option ScreenStockData
  optionsChain : String → ℚ → ℚ → Option (List SpreadPut) × String

/-- The per-symbol result dictionary appended by `run_screener` (lines
264-271).  The source stores `vol_rank`, `current_price` and `tech_score` as
formatted strings; the numeric payload is kept here. -/
structure ScreenRecord where
  symbol : String
  vol_rank : ℚ
  current_price : ℚ
  tech_score : ℕ
  spread : SpreadDetails
deriving DecidableEq

/-- Body of the `run_screener` loop (options_screener_logic.py lines
215-271) for one symbol: every `continue` of a failed stage becomes `none`,
and only a symbol passing the macro filter, data fetch, chain construction
and structural filter yields a record (the technical score is informational,
not a gate). -/
def screenOne (P : ScreenProviders) (symbol : String) : Option ScreenRecord :=
  let vol_rank := P.volRank symbol
  if vol_rank < 40 then none -- FAIL: volatility rank below 40 percent
  else
    match P.stockData symbol with
    | none => none -- FAIL: could not retrieve valid stock data
    | some sd =>
      match sd.price with
      | none => none -- FAIL: price is NaN
      | some current_price =>
        match (P.optionsChain symbol current_price P.riskFreeRate).1 with
        | none => none -- FAIL: could not build options chain
        | some chain =>
          match (find_best_put_spread chain).1 with
          | none => none -- FAIL: no structurally valid spread
          | some spread =>
            let t1 : ℕ := match sd.sma50 with
              | some s => if current_price > s then 1 else 0
              | none => 0
            let t2 : ℕ := match sd.rsi14 with
              | some r => if r < 70 then 1 else 0
              | none => 0
            some ⟨symbol, vol_rank, current_price, t1 + t2, spread⟩

/-- The accumulator loop of `run_screener`: results are appended in universe
order, failed symbols contribute nothing. -/
def runScreenerAux (P : ScreenProviders) :
    List String → List ScreenRecord → List ScreenRecord
  | [], results => results
  | symbol :: rest, results =>
    match screenOne P symbol with
    | none => runScreenerAux P rest results
    | some r => runScreenerAux P rest (results ++ [r])

/-- `run_screener` from options_screener_logic.py (lines 202-288), returning
the list of per-symbol result records. -/
def run_screener (P : ScreenProviders) (univ : List String) :
    List ScreenRecord :=
  runScreenerAux P univ []

/-- Providers on which every symbol fails the macro filter (volatility rank
0 < 40). -/
def c5FailProviders : ScreenProviders :=
  { riskFreeRate := 4/100
    volRank := fun _ => 0
    stockData := fun _ => none
    optionsChain := fun _ _ _ => (none, "no chain") }

/-- C5 counterexample: on a one-symbol universe whose symbol fails the macro
filter, `run_screener` returns the empty list — the FAIL outcome produces no
record at all (it is only printed), so the result does not contain one record
per universe symbol and carries no status or reason field. -/
theorem run_screener_fail_row_counterexample :
    run_screener c5FailProviders ["SPY"] = [] ∧
    (run_screener c5FailProviders ["SPY"]).length ≠ (["SPY"] : List String).length := by
  constructor
  · with_unfolding_all decide
  · with_unfolding_all decide

/-- The accumulator formulation of the screener loop equals `filterMap`. -/
theorem runScreenerAux_eq (P : ScreenProviders) (l : List String)
    (acc : List ScreenRecord) :
    runScreenerAux P l acc = acc ++ l.filterMap (screenOne P) := by
  induction l generalizing acc with
  | nil => simp [runScreenerAux]
  | cons s rest ih =>
    simp only [runScreenerAux, List.filterMap_cons]
    cases screenOne P s with
    | none => simp [ih]
    | some r => simp [ih]

/-- Inversion of a successful screen: a record is produced exactly from the
values of the passing stages. -/
theorem screenOne_some (P : ScreenProviders) (s : String) (r : ScreenRecord)
    (h : screenOne P s = some r) :
    r.symbol = s ∧ 40 ≤ P.volRank s ∧ r.vol_rank = P.volRank s ∧
    (∃ sd, P.stockData s = some sd ∧ sd.price = some r.current_price) ∧
    ∃ chain,
      (P.optionsChain s r.current_price P.riskFreeRate).1 = some chain ∧
      (find_best_put_spread chain).1 = some r.spread := by
  simp only [screenOne] at h
  split at h
  · exact absurd h (by simp)
  · rename_i hvol
    split at h
    · exact absurd h (by simp)
    · rename_i sd hsd
      split at h
      · exact absurd h (by simp)
      · rename_i cp hcp
        split at h
        · exact absurd h (by simp)
        · rename_i chain hchain
          split at h
          · exact absurd h (by simp)
          · rename_i spread hspread
            injection h with h2
            subst h2
            exact ⟨rfl, not_lt.mp hvol, rfl, ⟨sd, hsd, hcp⟩,
              chain, hchain, hspread⟩

/-- C5 amended: `run_screener` returns exactly the records of the universe
symbols that pass all filters, in universe order
(`univ.filterMap (screenOne P)`); a symbol that fails any stage
contributes no record (its failure reason is only printed), and every
returned record stems from a universe symbol whose volatility rank passed the
macro gate and for which the structural filter emitted exactly the recorded
spread. -/
theorem run_screener_pass_only (P : ScreenProviders) (univ : List String) :
    run_screener P univ = univ.filterMap (screenOne P) ∧
    ∀ r ∈ run_screener P univ, ∃ s ∈ univ,
      screenOne P s = some r ∧ r.symbol = s ∧ 40 ≤ P.volRank s ∧
      ∃ chain,
        (P.optionsChain s r.current_price P.riskFreeRate).1 = some chain ∧
        (find_best_put_spread chain).1 = some r.spread := by
  have heq : run_screener P univ = univ.filterMap (screenOne P) := by
    unfold run_screener
    rw [runScreenerAux_eq]
    simp
  refine ⟨heq, ?_⟩
  intro r hr
  rw [heq] at hr
  obtain ⟨s, hs, hsome⟩ := List.mem_filterMap.mp hr
  obtain ⟨hsym, hvol, _, _, chain, hchain, hspread⟩ :=
    screenOne_some P s r hsome
  exact ⟨s, hs, hsome, hsym, hvol, chain, hchain, hspread⟩

/-- Providers on which the symbol SPY passes every stage: volatility rank 50,
price 100 above its 50-day SMA 90, RSI 40, and a chain on which the spread
constructor succeeds. -/
def c5PassProviders : ScreenProviders :=
  { riskFreeRate := 4/100
    volRank := fun _ => 50
    stockData := fun _ => some ⟨some 100, some 90, some 40⟩
    optionsChain := fun _ _ _ => (some c4PassChain, "chain built") }

/-- The single record the screener emits on the passing providers. -/
def c5Record : ScreenRecord := ⟨"SPY", 50, 100, 2, c4PassSpread⟩

/-- Witness for `run_screener_pass_only`, applied to the concrete passing
run: the screener output is the filterMap of the universe, and the emitted
record belongs to a universe symbol whose volatility rank passed the gate. -/
theorem run_screener_pass_only_witness :
    run_screener c5PassProviders ["SPY"]
      = (["SPY"] : List String).filterMap (screenOne c5PassProviders) ∧
    c5Record.symbol ∈ (["SPY"] : List String) ∧
    40 ≤ c5PassProviders.volRank c5Record.symbol := by
  have hmem : c5Record ∈ run_screener c5PassProviders ["SPY"] := by
    norm_num [run_screener, runScreenerAux, screenOne, c5PassProviders,
      c5Record, c4PassSpread, find_best_put_spread, potentialShorts,
      potentialLongs, c4PassChain, List.filter_cons, maxAbsDelta, minAbsDelta,
      qabs, roundTo2, roundTo3, roundHalfEven]
  obtain ⟨s, hs, _, hsym, hvol, _⟩ :=
    (run_screener_pass_only c5PassProviders ["SPY"]).2 c5Record hmem
  refine ⟨(run_screener_pass_only c5PassProviders ["SPY"]).1, ?_, ?_⟩
  · rw [hsym]
    exact hs
  · rw [hsym]
    exact hvol

/-- The gain series of backend.py line 122 / options_screener_logic.py line
63: `delta.where(delta > 0, 0)` over the day-over-day differences.  The first
`diff` entry is NaN, and pandas `where` replaces it with 0 because
`NaN > 0` is false. -/
def gainsOf (closes : List ℚ) : List ℚ :=
  match closes with
  | [] => []
  | c :: rest =>
    0 :: List.zipWith (fun prev cur => if cur - prev > 0 then cur - prev else 0)
      (c :: rest) rest

/-- The loss series of backend.py line 123: `(-delta).where(delta < 0, 0)`,
again with the leading NaN replaced by 0. -/
def lossesOf (closes : List ℚ) : List ℚ :=
  match closes with
  | [] => []
  | c :: rest =>
    0 :: List.zipWith (fun prev cur => if cur - prev < 0 then -(cur - prev) else 0)
      (c :: rest) rest

/-- Last entry of `rolling(window=14).mean()`: the mean of the final 14
entries, or `none` (NaN) when fewer than 14 rows exist. -/
def lastRollingMean14 (l : List ℚ) : Option ℚ :=
  if l.length < 14 then none
  else some ((l.drop (l.length - 14)).sum / 14)

/-- The `current_rsi` computation of backend.py lines 121-126:
`rs = gain/loss; rsi = 100 - 100/(1+rs)` on the last window, with the IEEE
semantics of the pandas float division written out — a positive gain over a
zero loss gives `rs = +inf` hence `rsi = 100`; a zero gain over a zero loss
gives `rs = NaN` hence `rsi = NaN`, which line 126 replaces by the neutral
50, as it does when the window is incomplete. -/
def current_rsi (closes : List ℚ) : ℚ :=
  match lastRollingMean14 (gainsOf closes), lastRollingMean14 (lossesOf closes) with
  | some g, some l =>
    if 0 < l then 100 - 100 / (1 + g / l)
    else if 0 < g then 100
    else 50
  | _, _ => 50

/-- C6 counterexample: on 15 strictly increasing closes the 14-period average
loss is 0 while the average gain is positive, so `rs = +inf` and the RSI used
downstream is 100, not the claimed neutral default 50. -/
theorem current_rsi_zero_loss_counterexample :
    current_rsi [1, 2, 3, 4, 5, 6, 7, 8, 9, 10, 11, 12, 13, 14, 15] = 100 ∧
    (100 : ℚ) ≠ 50 := by
  constructor
  · with_unfolding_all decide
  · norm_num

/-- The gain series has one entry per close. -/
theorem gainsOf_length (closes : List ℚ) :
    (gainsOf closes).length = closes.length := by
  cases closes with
  | nil => rfl
  | cons c rest =>
    simp only [gainsOf, List.length_cons, List.length_zipWith]
    omega

/-- C6 amended: with at least 14 closes, the RSI equals
`100 - 100/(1 + avg_gain/avg_loss)` over the last 14-entry window whenever
the average loss is positive; it equals 100 (not 50) when the average loss is
zero and the average gain positive; and it defaults to 50 when both averages
are zero (flat window) or when fewer than 14 closes exist (undefined
value). -/
theorem current_rsi_characterisation :
    (∀ (closes : List ℚ) (g l : ℚ),
      lastRollingMean14 (gainsOf closes) = some g →
      lastRollingMean14 (lossesOf closes) = some l →
      current_rsi closes
        = if 0 < l then 100 - 100 / (1 + g / l)
          else if 0 < g then 100 else 50) ∧
    (∀ closes : List ℚ, closes.length < 14 → current_rsi closes = 50) := by
  constructor
  · intro closes g l hg hl
    unfold current_rsi
    rw [hg, hl]
  · intro closes hlen
    have hnone : lastRollingMean14 (gainsOf closes) = none := by
      unfold lastRollingMean14
      rw [if_pos]
      rw [gainsOf_length]
      exact hlen
    unfold current_rsi
    rw [hnone]

/-- Witness for `current_rsi_characterisation`: a flat 14-close series hits
the zero-gain zero-loss branch (RSI defaults to 50), and an empty series has
insufficient history. -/
theorem current_rsi_characterisation_witness :
    current_rsi [5, 5, 5, 5, 5, 5, 5, 5, 5, 5, 5, 5, 5, 5]
      = (if 0 < (0:ℚ) then 100 - 100 / (1 + 0 / 0)
         else if 0 < (0:ℚ) then 100 else 50) ∧
    current_rsi [] = 50 := by
  constructor
  · exact current_rsi_characterisation.1 [5, 5, 5, 5, 5, 5, 5, 5, 5, 5, 5, 5, 5, 5]
      0 0 (by with_unfolding_all decide) (by with_unfolding_all decide)
  · exact current_rsi_characterisation.2 [] (by decide)
